import Mathlib

/-!
Verification of the equation-solver core of the Sheet_Metal_Brazing repository.

The embedded code is `solve_equation` from `src/pages/5_🧮_Engineering_Equations.py`
together with the `EngineeringEquation` record and the `EQUATIONS` registry from
`src/app_data.py`.  Python floats are modelled by `ℚ`; a Python
`Dict[str, Optional[float]]` is modelled by an association list
`List (String × Option ℚ)` in insertion order (dictionary semantics are recovered
through `Nodup` hypotheses on the key list where a theorem needs them).

The symbolic algebra engine (sympy) is modelled on the fragment the repository
exercises: `sympify` is modelled by a tokenizer and recursive-descent parser for
Python arithmetic expressions (`+ - * / ** ( )`, names, decimal literals), and
`sp.solve` followed by the `is_real` filter is modelled by reduction of the
substituted expression to a univariate polynomial of degree at most two over `ℚ`
and rational root extraction.  Where a solve result falls outside this fragment
(irrational real roots, non-polynomial equations) the model returns `none` for
the result payload; every claim below is settled inside the fragment.
-/

/-- Abstract syntax of the arithmetic expressions sympy builds from the stored
expression strings: numbers, symbols, and the operators appearing in the
repository's equation catalog. -/
inductive SymExpr where
  | num (q : ℚ)
  | var (name : String)
  | add (a b : SymExpr)
  | sub (a b : SymExpr)
  | mul (a b : SymExpr)
  | div (a b : SymExpr)
  | pow (a b : SymExpr)
  | neg (a : SymExpr)
deriving DecidableEq, Repr

/-- Tokens of the Python arithmetic expression grammar. -/
inductive Tok where
  | num (q : ℚ)
  | ident (s : String)
  | plus
  | minus
  | star
  | slash
  | dstar
  | lparen
  | rparen
deriving DecidableEq, Repr

/-- Split a character list at the longest Boolean-predicate-satisfying head. -/
def spanChars (p : Char → Bool) : List Char → List Char × List Char
  | [] => ([], [])
  | c :: cs =>
    if p c then
      let (a, b) := spanChars p cs
      (c :: a, b)
    else ([], c :: cs)

/-- Value of a digit list read in base ten. -/
def digitsToNat (ds : List Char) : Nat :=
  ds.foldl (fun a c => a * 10 + (c.toNat - 48)) 0

/-- Python identifier characters (letters, digits, underscore). -/
def isIdentChar (c : Char) : Bool := c.isAlphanum || c = '_'

/-- Python identifier start characters (letters, underscore). -/
def isIdentStart (c : Char) : Bool := c.isAlpha || c = '_'

/-- Tokenizer for the arithmetic fragment, modelling the lexical phase of
`sp.sympify`; `none` models a lexical failure (`SympifyError`).  The fuel
argument bounds the recursion; one unit per consumed character suffices. -/
def tokenize : Nat → List Char → Option (List Tok)
  | 0, _ => none
  | _, [] => some []
  | fuel + 1, c :: rest =>
    if c = ' ' then tokenize fuel rest
    else if c = '+' then (Tok.plus :: ·) <$> tokenize fuel rest
    else if c = '-' then (Tok.minus :: ·) <$> tokenize fuel rest
    else if c = '/' then (Tok.slash :: ·) <$> tokenize fuel rest
    else if c = '(' then (Tok.lparen :: ·) <$> tokenize fuel rest
    else if c = ')' then (Tok.rparen :: ·) <$> tokenize fuel rest
    else if c = '*' then
      match rest with
      | '*' :: r2 => (Tok.dstar :: ·) <$> tokenize fuel r2
      | _ => (Tok.star :: ·) <$> tokenize fuel rest
    else if c.isDigit then
      let (ds, r1) := spanChars Char.isDigit (c :: rest)
      match r1 with
      | '.' :: r2 =>
        let (fs, r3) := spanChars Char.isDigit r2
        let q : ℚ := (digitsToNat (ds ++ fs) : ℚ) / ((10 : ℚ) ^ fs.length)
        (Tok.num q :: ·) <$> tokenize fuel r3
      | _ => (Tok.num (digitsToNat ds : ℚ) :: ·) <$> tokenize fuel r1
    else if isIdentStart c then
      let (is, r1) := spanChars isIdentChar (c :: rest)
      (Tok.ident (String.mk is) :: ·) <$> tokenize fuel r1
    else none

mutual

/-- Parse a sum/difference chain (lowest precedence), modelling the Python
grammar sympy parses the stored expression strings with. -/
def parseExpr : Nat → List Tok → Option (SymExpr × List Tok)
  | 0, _ => none
  | f + 1, toks => do
    let (t, r) ← parseTerm f toks
    parseExprRest f t r

/-- Fold further `+ t` / `- t` items onto an already parsed left operand. -/
def parseExprRest : Nat → SymExpr → List Tok → Option (SymExpr × List Tok)
  | 0, _, _ => none
  | f + 1, acc, Tok.plus :: r => do
    let (t, r2) ← parseTerm f r
    parseExprRest f (SymExpr.add acc t) r2
  | f + 1, acc, Tok.minus :: r => do
    let (t, r2) ← parseTerm f r
    parseExprRest f (SymExpr.sub acc t) r2
  | _ + 1, acc, r => some (acc, r)

/-- Parse a product/quotient chain. -/
def parseTerm : Nat → List Tok → Option (SymExpr × List Tok)
  | 0, _ => none
  | f + 1, toks => do
    let (t, r) ← parseUnary f toks
    parseTermRest f t r

/-- Fold further `* t` / `/ t` items onto an already parsed left operand. -/
def parseTermRest : Nat → SymExpr → List Tok → Option (SymExpr × List Tok)
  | 0, _, _ => none
  | f + 1, acc, Tok.star :: r => do
    let (t, r2) ← parseUnary f r
    parseTermRest f (SymExpr.mul acc t) r2
  | f + 1, acc, Tok.slash :: r => do
    let (t, r2) ← parseUnary f r
    parseTermRest f (SymExpr.div acc t) r2
  | _ + 1, acc, r => some (acc, r)

/-- Parse a unary-minus chain; in Python `-x**2` parses as `-(x**2)`. -/
def parseUnary : Nat → List Tok → Option (SymExpr × List Tok)
  | 0, _ => none
  | f + 1, Tok.minus :: r => do
    let (t, r2) ← parseUnary f r
    some (SymExpr.neg t, r2)
  | f + 1, toks => parsePow f toks

/-- Parse a power; `**` is right-associative and its exponent may start with
a unary minus. -/
def parsePow : Nat → List Tok → Option (SymExpr × List Tok)
  | 0, _ => none
  | f + 1, toks => do
    let (a, r) ← parseAtom f toks
    match r with
    | Tok.dstar :: r2 => do
      let (b, r3) ← parseUnary f r2
      some (SymExpr.pow a b, r3)
    | _ => some (a, r)

/-- Parse an atom: a number, a symbol name, or a parenthesised expression. -/
def parseAtom : Nat → List Tok → Option (SymExpr × List Tok)
  | 0, _ => none
  | _ + 1, Tok.num q :: r => some (SymExpr.num q, r)
  | _ + 1, Tok.ident s :: r => some (SymExpr.var s, r)
  | f + 1, Tok.lparen :: r => do
    let (e, r2) ← parseExpr f r
    match r2 with
    | Tok.rparen :: r3 => some (e, r3)
    | _ => none
  | _ + 1, _ => none

end

/-- Model of `sp.sympify` on the repository's expression strings: tokenize and
parse the whole string; `none` models a raised `sympy.SympifyError`.  Free
names need no declaration: sympy creates a symbol for any identifier, whether
or not it occurs in the `locals` dictionary. -/
def sympify (s : String) : Option SymExpr := do
  let toks ← tokenize (s.length + 1) s.data
  let (e, rest) ← parseExpr (4 * toks.length + 8) toks
  match rest with
  | [] => some e
  | _ => none

/-- The `EngineeringEquation` dataclass of `src/app_data.py`: a display name,
the stored expression string (interpreted as `expression = 0`), and the ordered
variable-name → description dictionary. -/
structure EngineeringEquation where
  name : String
  expression : String
  «variables» : List (String × String)
deriving DecidableEq, Repr

/-- First registry entry of `src/app_data.py`. -/
def shearFlowEquation : EngineeringEquation :=
  { name := "Shear flow between bonded plates"
    expression := "tau - V*Q/(I*b)"
    «variables» :=
      [("tau", "Shear stress (psi)"),
       ("V", "Shear force (lbf)"),
       ("Q", "First moment of area about the neutral axis (in^3)"),
       ("I", "Moment of inertia of the section (in^4)"),
       ("b", "Width of the bond line (in)")] }

/-- Second registry entry of `src/app_data.py`. -/
def punchingForceEquation : EngineeringEquation :=
  { name := "Punching force"
    expression := "F - (t * L * S_s)"
    «variables» :=
      [("F", "Punching force (lbf)"),
       ("t", "Sheet thickness (in)"),
       ("L", "Total length of cut/perimeter (in)"),
       ("S_s", "Shear strength of material (psi)")] }

/-- Third registry entry of `src/app_data.py`. -/
def airBendingEquation : EngineeringEquation :=
  { name := "Air bending force (approximate)"
    expression := "F - (k * S_t * t**2 * W / (8 * V_d))"
    «variables» :=
      [("F", "Force per unit length (lbf/in)"),
       ("k", "Die/geometry factor (1.33 for V-die air bend)"),
       ("S_t", "Tensile strength (psi)"),
       ("t", "Sheet thickness (in)"),
       ("W", "Part width engaged (in)"),
       ("V_d", "V-die opening (in)")] }

/-- The `EQUATIONS` registry of `src/app_data.py`, in declaration order. -/
def EQUATIONS : List EngineeringEquation :=
  [shearFlowEquation, punchingForceEquation, airBendingEquation]

/-- The equation's variable names in declaration order
(`eq.variables.keys()`). -/
def varNames (eq : EngineeringEquation) : List String :=
  eq.«variables».map Prod.fst

/-- Polynomial addition on little-endian coefficient lists. -/
def polyAdd : List ℚ → List ℚ → List ℚ
  | [], q => q
  | p, [] => p
  | a :: p, b :: q => (a + b) :: polyAdd p q

/-- Coefficient-wise negation. -/
def polyNeg (p : List ℚ) : List ℚ := p.map Neg.neg

/-- Polynomial subtraction. -/
def polySub (p q : List ℚ) : List ℚ := polyAdd p (polyNeg q)

/-- Multiplication by a scalar. -/
def polyScale (c : ℚ) (p : List ℚ) : List ℚ := p.map (c * ·)

/-- Polynomial multiplication. -/
def polyMul : List ℚ → List ℚ → List ℚ
  | [], _ => []
  | a :: p, q => polyAdd (polyScale a q) (0 :: polyMul p q)

/-- Polynomial power with a natural exponent. -/
def polyPow (p : List ℚ) : Nat → List ℚ
  | 0 => [1]
  | n + 1 => polyMul p (polyPow p n)

/-- Drop trailing zero coefficients so the last entry of a nonempty result is
a nonzero leading coefficient. -/
def normPoly (p : List ℚ) : List ℚ :=
  (p.reverse.dropWhile (fun c => decide (c = 0))).reverse

/-- A normalized polynomial that is a constant, together with its value. -/
def isConstPoly (p : List ℚ) : Option ℚ :=
  match normPoly p with
  | [] => some 0
  | [c] => some c
  | _ => none

/-- Reduce an expression to the little-endian coefficient list of a polynomial
in the single symbol `target`; `none` when the expression leaves the modelled
fragment (another free symbol, the target inside a denominator or exponent,
division by zero, a non-natural exponent). -/
def toPoly : SymExpr → String → Option (List ℚ)
  | .num q, _ => some [q]
  | .var n, target => if n = target then some [0, 1] else none
  | .add a b, target => do
    let pa ← toPoly a target
    let pb ← toPoly b target
    some (polyAdd pa pb)
  | .sub a b, target => do
    let pa ← toPoly a target
    let pb ← toPoly b target
    some (polySub pa pb)
  | .mul a b, target => do
    let pa ← toPoly a target
    let pb ← toPoly b target
    some (polyMul pa pb)
  | .div a b, target => do
    let pa ← toPoly a target
    let pb ← toPoly b target
    match isConstPoly pb with
    | some c => if c = 0 then none else some (polyScale c⁻¹ pa)
    | none => none
  | .pow a b, target => do
    let pa ← toPoly a target
    let pb ← toPoly b target
    match isConstPoly pb with
    | some c => if c.den = 1 ∧ 0 ≤ c.num then some (polyPow pa c.num.toNat) else none
    | none => none
  | .neg a, target => do
    let pa ← toPoly a target
    some (polyNeg pa)

/-- Rational square root, defined exactly on perfect squares: the sympy roots
of the modelled quadratics are rational, and a nonsquare discriminant leaves
the modelled fragment. -/
def ratSqrt (q : ℚ) : Option ℚ :=
  if 0 ≤ q.num then
    let n := Nat.sqrt q.num.toNat
    let d := Nat.sqrt q.den
    if (n * n : ℤ) = q.num ∧ d * d = q.den then some ((n : ℚ) / (d : ℚ)) else none
  else none

/-- Real roots of a normalized polynomial of degree at most two, modelling
`sp.solve` on `Eq(poly, 0)` followed by the `is_real` filter: a zero or
constant equation has no solutions, a linear one has its single root, and a
quadratic has both real roots when the discriminant is nonnegative and none
when it is negative (the two complex roots are filtered out).  `none` marks
results outside the model (irrational real roots, degree above two). -/
def polyRootsReal : List ℚ → Option (List ℚ)
  | [] => some []
  | [_] => some []
  | [b, a] => some [-b / a]
  | [c, b, a] =>
    let disc := b ^ 2 - 4 * a * c
    if disc < 0 then some []
    else
      match ratSqrt disc with
      | some s =>
        if disc = 0 then some [-b / (2 * a)]
        else some [(-b - s) / (2 * a), (-b + s) / (2 * a)]
      | none => none
  | _ => none

/-- Substitute numeric values for symbols throughout an expression, modelling
`expression.subs(substitutions)`. -/
def SymExpr.subst : SymExpr → List (String × ℚ) → SymExpr
  | .num q, _ => .num q
  | .var n, s =>
    match (s.find? (fun p => p.1 = n)).map Prod.snd with
    | some q => .num q
    | none => .var n
  | .add a b, s => .add (a.subst s) (b.subst s)
  | .sub a b, s => .sub (a.subst s) (b.subst s)
  | .mul a b, s => .mul (a.subst s) (b.subst s)
  | .div a b, s => .div (a.subst s) (b.subst s)
  | .pow a b, s => .pow (a.subst s) (b.subst s)
  | .neg a, s => .neg (a.subst s)

/-- Model of `sp.solve(sp.Eq(e, 0), target)` followed by the real filter, on
the fragment described at `polyRootsReal`. -/
def sympySolveReal (e : SymExpr) (target : String) : Option (List ℚ) :=
  match toPoly e target with
  | some p => polyRootsReal (normPoly p)
  | none => none

/-- Numeric evaluation of a closed expression under an environment, used to
substitute a computed solution back into an equation. -/
def SymExpr.eval : SymExpr → List (String × ℚ) → Option ℚ
  | .num q, _ => some q
  | .var n, env => (env.find? (fun p => p.1 = n)).map Prod.snd
  | .add a b, env => do
    let x ← a.eval env
    let y ← b.eval env
    some (x + y)
  | .sub a b, env => do
    let x ← a.eval env
    let y ← b.eval env
    some (x - y)
  | .mul a b, env => do
    let x ← a.eval env
    let y ← b.eval env
    some (x * y)
  | .div a b, env => do
    let x ← a.eval env
    let y ← b.eval env
    if y = 0 then none else some (x / y)
  | .pow a b, env => do
    let x ← a.eval env
    let y ← b.eval env
    if y.den = 1 ∧ 0 ≤ y.num then some (x ^ y.num.toNat) else none
  | .neg a, env => do
    let x ← a.eval env
    some (-x)

/-- The ways `solve_equation` can raise, in the model: the Python `KeyError`
from a `symbols[·]` dictionary lookup, the explicit `ValueError` of the
missing-input check (carrying the full message), the `IndexError` a `[... ][0]`
on an empty list would raise, and a propagated `sympy.SympifyError` carrying
the offending expression string. -/
inductive SolveError where
  | keyError (key : String)
  | valueError (msg : String)
  | indexError
  | sympifyError (expr : String)
deriving DecidableEq, Repr

/-- Decidable equality of `Except` values, to evaluate concrete solver
outcomes. -/
instance {ε α : Type} [DecidableEq ε] [DecidableEq α] : DecidableEq (Except ε α) := fun a b =>
  match a, b with
  | .error e, .error f => decidable_of_iff (e = f) (by simp)
  | .ok x, .ok y => decidable_of_iff (x = y) (by simp)
  | .error _, .ok _ => isFalse (fun h => Except.noConfusion h)
  | .ok _, .error _ => isFalse (fun h => Except.noConfusion h)

/-- The exact `ValueError` message built by `solve_equation` for a missing
variable. -/
def missingMsg (m : String) : String :=
  "Provide all other values before solving (missing: " ++ m ++ ")"

/-- The dictionary comprehension of line 26:
`{symbols[k]: v for k, v in inputs.items() if v is not None and k != solve_for}`.
Items are visited in insertion order; a kept key absent from the symbol
dictionary raises `KeyError` at that item. -/
def buildSubstitutions :
    List (String × Option ℚ) → List String → String → Except SolveError (List (String × ℚ))
  | [], _, _ => .ok []
  | (k, v) :: rest, names, solve_for =>
    match v with
    | none => buildSubstitutions rest names solve_for
    | some x =>
      if k = solve_for then buildSubstitutions rest names solve_for
      else if k ∈ names then
        match buildSubstitutions rest names solve_for with
        | .ok s => .ok ((k, x) :: s)
        | .error e => .error e
      else .error (.keyError k)

/-- Lookup in the inputs dictionary: `none` when the key is absent,
`some none` when the key is mapped to Python `None`. -/
def inputLookup (inputs : List (String × Option ℚ)) (k : String) : Option (Option ℚ) :=
  (inputs.find? (fun p => p.1 = k)).map Prod.snd

/-- The predicate of line 30: `k not in inputs or inputs[k] is None`. -/
def isMissing (inputs : List (String × Option ℚ)) (k : String) : Bool :=
  match inputLookup inputs k with
  | some (some _) => false
  | _ => true

/-- `solve_equation` from `src/pages/5_🧮_Engineering_Equations.py`, line by
line: build the symbol dictionary (its key set is `varNames eq`), sympify the
stored expression, build the substitutions dictionary (first stray non-`None`
key raises `KeyError`), look up the target symbol (line 27; a `solve_for`
outside the variables raises `KeyError`), run the completeness check of
line 29 (raising `ValueError` naming the first variable of the declaration
order without a provided value), and finally solve and keep the real
solutions.  The `Option` in the success payload is `none` only when the
resulting algebra leaves the modelled sympy fragment. -/
def solve_equation (eq : EngineeringEquation) (solve_for : String)
    (inputs : List (String × Option ℚ)) : Except SolveError (Option (List ℚ)) :=
  match sympify eq.expression with
  | none => .error (.sympifyError eq.expression)
  | some expression =>
    match buildSubstitutions inputs (varNames eq) solve_for with
    | .error e => .error e
    | .ok substitutions =>
      if solve_for ∈ varNames eq then
        if substitutions.length + 1 ≠ (varNames eq).length then
          match ((varNames eq).filter (isMissing inputs)).head? with
          | some missing => .error (.valueError (missingMsg missing))
          | none => .error .indexError
        else .ok (sympySolveReal (expression.subst substitutions) solve_for)
      else .error (.keyError solve_for)

/-- The item transformer of the line-26 dictionary comprehension: keep a
non-`None` entry whose key differs from the unknown. -/
def keepPair (sf : String) : String × Option ℚ → Option (String × ℚ)
  | (k, some x) => if k = sf then none else some (k, x)
  | (_, none) => none

/-- The substitution dictionary as a filtered list, for reasoning about
`buildSubstitutions` on the no-`KeyError` path. -/
def subsList (sf : String) (inputs : List (String × Option ℚ)) : List (String × ℚ) :=
  inputs.filterMap (keepPair sf)

/-- `inputs` with every entry for key `u` removed. -/
def removeKey (u : String) : List (String × Option ℚ) → List (String × Option ℚ)
  | [] => []
  | p :: tl => if p.1 = u then removeKey u tl else p :: removeKey u tl

/-- Abstract syntax of the punching-force expression `F - (t * L * S_s)`, as
`sympify` produces it. -/
def punchAst : SymExpr :=
  .sub (.var "F") (.mul (.mul (.var "t") (.var "L")) (.var "S_s"))

/-- Abstract syntax of the air-bending expression
`F - (k * S_t * t**2 * W / (8 * V_d))`, as `sympify` produces it. -/
def airBendAst : SymExpr :=
  .sub (.var "F")
    (.div (.mul (.mul (.mul (.var "k") (.var "S_t")) (.pow (.var "t") (.num 2)))
        (.var "W"))
      (.mul (.num 8) (.var "V_d")))

/-- The spec's test equation `x**2 - 4 = 0`, passed directly to the solver. -/
def quadMinusFour : EngineeringEquation :=
  { name := "quadratic with real roots"
    expression := "x**2 - 4"
    «variables» := [("x", "test variable")] }

/-- The spec's test equation `x**2 + 4 = 0`, passed directly to the solver. -/
def quadPlusFour : EngineeringEquation :=
  { name := "quadratic with imaginary roots"
    expression := "x**2 + 4"
    «variables» := [("x", "test variable")] }

/-- The required variables that are missing: non-unknown variables without a
supplied numeric value. -/
def requiredMissingVars (eq : EngineeringEquation) (sf : String)
    (inputs : List (String × Option ℚ)) : List String :=
  (varNames eq).filter (fun v => decide (v ≠ sf) && isMissing inputs v)

/-- When the expression parses, the substitution dictionary builds without a
`KeyError`, the target symbol exists, and the completeness check passes, the
call reaches line 33 and returns the filtered solve result. -/
theorem solve_equation_ok_of (eq : EngineeringEquation) (sf : String)
    (inputs : List (String × Option ℚ)) (E : SymExpr) (subs : List (String × ℚ))
    (hE : sympify eq.expression = some E)
    (hsub : buildSubstitutions inputs (varNames eq) sf = .ok subs)
    (hsf : sf ∈ varNames eq)
    (hlen : subs.length + 1 = (varNames eq).length) :
    solve_equation eq sf inputs = .ok (sympySolveReal (E.subst subs) sf) := by
  simp only [solve_equation, hE, hsub, if_pos hsf, hlen, ne_eq, not_true_eq_false,
    Bool.false_eq_true, if_false]

/-- An expression the engine cannot parse makes `solve_equation` propagate the
engine's own error at line 23, before the substitution dictionary, the target
lookup, or the completeness check run: the code contains no handler and
defines no error type of its own for this case. -/
theorem solve_equation_sympify_error (eq : EngineeringEquation) (sf : String)
    (inputs : List (String × Option ℚ)) (h : sympify eq.expression = none) :
    solve_equation eq sf inputs = .error (.sympifyError eq.expression) := by
  simp only [solve_equation, h]

example : sympify "F - (t *" = none := by rfl

example :
    solve_equation
      { name := "broken", expression := "F - (t *",
        «variables» := [("F", ""), ("t", "")] } "F" [("t", some 1)] =
    .error (.sympifyError "F - (t *") := by decide

/-- `ratSqrt` recovers a nonnegative rational from its square. -/
theorem ratSqrt_of_sq (s : ℚ) (hs : 0 ≤ s) : ratSqrt (s * s) = some s := by
  unfold ratSqrt
  rw [Rat.mul_self_num, Rat.mul_self_den]
  rw [if_pos (mul_self_nonneg s.num)]
  have hn : (s.num * s.num).toNat = s.num.natAbs * s.num.natAbs := by
    rw [← Int.natAbs_mul_self, Int.toNat_natCast]
  rw [hn, Nat.sqrt_eq, Nat.sqrt_eq]
  rw [if_pos ⟨Int.natAbs_mul_self' s.num, rfl⟩]
  have hnum : (s.num.natAbs : ℤ) = s.num := Int.natAbs_of_nonneg (Rat.num_nonneg.mpr hs)
  have : (s.num.natAbs : ℚ) = (s.num : ℚ) := by
    rw [← Int.cast_natCast, hnum]
  rw [this, Rat.num_div_den]

/-- A two-coefficient list with nonzero leading coefficient is normalized. -/
theorem normPoly_linear (b a : ℚ) (ha : a ≠ 0) : normPoly [b, a] = [b, a] := by
  simp [normPoly, List.dropWhile, ha]

/-- A three-coefficient list with nonzero leading coefficient is normalized. -/
theorem normPoly_quad (c b a : ℚ) (ha : a ≠ 0) : normPoly [c, b, a] = [c, b, a] := by
  simp [normPoly, List.dropWhile, ha]

/-- The modelled solver on a linear equation returns the single root. -/
theorem sympySolveReal_linear (e : SymExpr) (v : String) (b a : ℚ)
    (h : toPoly e v = some [b, a]) (ha : a ≠ 0) :
    sympySolveReal e v = some [-b / a] := by
  simp only [sympySolveReal, h, normPoly_linear b a ha]
  rfl

/-- The modelled solver on a quadratic with negative discriminant returns the
empty list: both roots are complex and the `is_real` filter removes them. -/
theorem sympySolveReal_quadNeg (e : SymExpr) (v : String) (c b a : ℚ)
    (h : toPoly e v = some [c, b, a]) (ha : a ≠ 0)
    (hd : b ^ 2 - 4 * a * c < 0) :
    sympySolveReal e v = some [] := by
  simp only [sympySolveReal, h, normPoly_quad c b a ha, polyRootsReal]
  rw [if_pos hd]

/-- The modelled solver on a quadratic with positive square discriminant
returns both real roots. -/
theorem sympySolveReal_quadPos (e : SymExpr) (v : String) (c b a s : ℚ)
    (h : toPoly e v = some [c, b, a]) (ha : a ≠ 0) (hs : 0 ≤ s)
    (hsq : s * s = b ^ 2 - 4 * a * c) (hpos : 0 < b ^ 2 - 4 * a * c) :
    sympySolveReal e v = some [(-b - s) / (2 * a), (-b + s) / (2 * a)] := by
  simp only [sympySolveReal, h, normPoly_quad c b a ha, polyRootsReal]
  rw [if_neg (not_lt.mpr (le_of_lt hpos)), ← hsq, ratSqrt_of_sq s hs, hsq]
  show (if b ^ 2 - 4 * a * c = 0 then some [-b / (2 * a)]
      else some [(-b - s) / (2 * a), (-b + s) / (2 * a)]) =
    some [(-b - s) / (2 * a), (-b + s) / (2 * a)]
  rw [if_neg (ne_of_gt hpos)]

example : sympify "F - (t * L * S_s)" =
    some (.sub (.var "F") (.mul (.mul (.var "t") (.var "L")) (.var "S_s"))) := by
  rfl

example : sympify "x**2 - 4" =
    some (.sub (.pow (.var "x") (.num 2)) (.num 4)) := by rfl

example : sympify "F - (k * S_t * t**2 * W / (8 * V_d))" =
    some (.sub (.var "F")
      (.div (.mul (.mul (.mul (.var "k") (.var "S_t")) (.pow (.var "t") (.num 2))) (.var "W"))
        (.mul (.num 8) (.var "V_d")))) := by rfl

/-- A nonzero constant polynomial is already normalized. -/
theorem normPoly_singleton_ne (c : ℚ) (hc : c ≠ 0) : normPoly [c] = [c] := by
  simp [normPoly, List.dropWhile, hc]

/-- A nonzero constant polynomial is recognised as the constant it is. -/
theorem isConstPoly_singleton (c : ℚ) (hc : c ≠ 0) : isConstPoly [c] = some c := by
  unfold isConstPoly
  rw [normPoly_singleton_ne c hc]

/-- When every input key is an equation variable, the comprehension raises no
`KeyError` and returns the filtered entries in order. -/
theorem buildSubstitutions_ok (inputs : List (String × Option ℚ)) (names : List String)
    (sf : String) (hkeys : ∀ p ∈ inputs, p.2 ≠ none → p.1 ≠ sf → p.1 ∈ names) :
    buildSubstitutions inputs names sf = .ok (subsList sf inputs) := by
  induction inputs with
  | nil => rfl
  | cons hd tl ih =>
    have hkt : ∀ p ∈ tl, p.2 ≠ none → p.1 ≠ sf → p.1 ∈ names :=
      fun p hp => hkeys p (List.mem_cons_of_mem _ hp)
    obtain ⟨k, v⟩ := hd
    cases v with
    | none => simpa [buildSubstitutions, subsList, keepPair] using ih hkt
    | some x =>
      by_cases hk : k = sf
      · simpa [buildSubstitutions, subsList, keepPair, hk] using ih hkt
      · have hm : k ∈ names :=
          hkeys (k, some x) (List.mem_cons_self _ _) (by simp) hk
        simp [buildSubstitutions, subsList, keepPair, hk, hm, ih hkt]

/-- A retained entry whose key is not an equation variable makes the
comprehension of line 26 raise a `KeyError` for some such key. -/
theorem buildSubstitutions_err (inputs : List (String × Option ℚ)) (names : List String)
    (sf : String) (h : ∃ p ∈ inputs, p.2 ≠ none ∧ p.1 ≠ sf ∧ p.1 ∉ names) :
    ∃ k, k ∉ names ∧ buildSubstitutions inputs names sf = .error (.keyError k) := by
  induction inputs with
  | nil => simp at h
  | cons hd tl ih =>
    obtain ⟨k, v⟩ := hd
    obtain ⟨p, hp, hp2, hp3, hp4⟩ := h
    cases v with
    | none =>
      rcases List.mem_cons.mp hp with rfl | htl
      · exact absurd rfl hp2
      · obtain ⟨k', h1, h2⟩ := ih ⟨p, htl, hp2, hp3, hp4⟩
        exact ⟨k', h1, by simpa [buildSubstitutions] using h2⟩
    | some x =>
      by_cases hk : k = sf
      · have htl : p ∈ tl := by
          rcases List.mem_cons.mp hp with rfl | htl
          · exact absurd hk hp3
          · exact htl
        obtain ⟨k', h1, h2⟩ := ih ⟨p, htl, hp2, hp3, hp4⟩
        exact ⟨k', h1, by simpa [buildSubstitutions, hk] using h2⟩
      · by_cases hmem : k ∈ names
        · have htl : p ∈ tl := by
            rcases List.mem_cons.mp hp with rfl | htl
            · exact absurd hmem hp4
            · exact htl
          obtain ⟨k', h1, h2⟩ := ih ⟨p, htl, hp2, hp3, hp4⟩
          exact ⟨k', h1, by simp [buildSubstitutions, hk, hmem, h2]⟩
        · exact ⟨k, hmem, by simp [buildSubstitutions, hk, hmem]⟩

/-- The substitution keys form a sublist of the input keys. -/
theorem subsList_keys_sublist (sf : String) (inputs : List (String × Option ℚ)) :
    ((subsList sf inputs).map Prod.fst).Sublist (inputs.map Prod.fst) := by
  induction inputs with
  | nil => simp [subsList]
  | cons hd tl ih =>
    obtain ⟨k, v⟩ := hd
    cases v with
    | none =>
      simp only [subsList, List.filterMap_cons, keepPair, List.map_cons]
      exact ih.cons _
    | some x =>
      by_cases hk : k = sf
      · simp only [subsList, List.filterMap_cons, keepPair, if_pos hk, List.map_cons]
        exact ih.cons _
      · simp only [subsList, List.filterMap_cons, keepPair, if_neg hk, List.map_cons]
        exact ih.cons₂ _

/-- A key appears among the substitutions exactly when some entry supplies a
value for it and it is not the unknown. -/
theorem mem_subsList_keys (sf j : String) (inputs : List (String × Option ℚ)) :
    j ∈ (subsList sf inputs).map Prod.fst ↔
      (∃ x, (j, some x) ∈ inputs) ∧ j ≠ sf := by
  induction inputs with
  | nil => simp [subsList]
  | cons hd tl ih =>
    obtain ⟨k, v⟩ := hd
    cases v with
    | none =>
      simp only [subsList, List.filterMap_cons, keepPair, List.mem_cons] at *
      rw [ih]
      constructor
      · rintro ⟨⟨x, hx⟩, hj⟩
        exact ⟨⟨x, Or.inr hx⟩, hj⟩
      · rintro ⟨⟨x, hx | hx⟩, hj⟩
        · exact absurd hx (by simp)
        · exact ⟨⟨x, hx⟩, hj⟩
    | some x0 =>
      by_cases hk : k = sf
      · simp only [subsList, List.filterMap_cons, keepPair, if_pos hk, List.mem_cons]
        rw [show (List.filterMap (keepPair sf) tl).map Prod.fst =
            (subsList sf tl).map Prod.fst from rfl, ih]
        constructor
        · rintro ⟨⟨x, hx⟩, hj⟩
          exact ⟨⟨x, Or.inr hx⟩, hj⟩
        · rintro ⟨⟨x, hx | hx⟩, hj⟩
          · injection hx with h1 h2
            exact absurd (h1.trans hk) hj
          · exact ⟨⟨x, hx⟩, hj⟩
      · simp only [subsList, List.filterMap_cons, keepPair, if_neg hk, List.map_cons,
          List.mem_cons]
        rw [show (List.filterMap (keepPair sf) tl).map Prod.fst =
            (subsList sf tl).map Prod.fst from rfl, ih]
        constructor
        · rintro (rfl | ⟨⟨x, hx⟩, hj⟩)
          · exact ⟨⟨x0, Or.inl rfl⟩, hk⟩
          · exact ⟨⟨x, Or.inr hx⟩, hj⟩
        · rintro ⟨⟨x, hx | hx⟩, hj⟩
          · injection hx with h1 h2
            exact Or.inl h1
          · exact Or.inr ⟨⟨x, hx⟩, hj⟩

/-- Dictionary semantics of the inputs association list: with distinct keys, a
member pair is what lookup returns. -/
theorem inputLookup_eq_of_mem (inputs : List (String × Option ℚ)) (a : String)
    (b : Option ℚ) (hnd : (inputs.map Prod.fst).Nodup) (hmem : (a, b) ∈ inputs) :
    inputLookup inputs a = some b := by
  induction inputs with
  | nil => simp at hmem
  | cons hd tl ih =>
    obtain ⟨k, v⟩ := hd
    rcases List.mem_cons.mp hmem with heq | htl
    · injection heq with h1 h2
      subst h1; subst h2
      simp [inputLookup, List.find?]
    · have hk : ¬(k = a) := by
        rintro rfl
        have hmk : k ∈ tl.map Prod.fst := List.mem_map.mpr ⟨(k, b), htl, rfl⟩
        simp only [List.map_cons, List.nodup_cons] at hnd
        exact hnd.1 hmk
      have := ih (by simpa using hnd.of_cons) htl
      simpa [inputLookup, List.find?, hk] using this

/-- A successful lookup comes from a member pair. -/
theorem mem_of_inputLookup (inputs : List (String × Option ℚ)) (a : String)
    (v : Option ℚ) (h : inputLookup inputs a = some v) : (a, v) ∈ inputs := by
  unfold inputLookup at h
  rcases hf : inputs.find? (fun p => p.1 = a) with _ | p
  · rw [hf] at h; simp at h
  · rw [hf] at h
    simp only [Option.map_some', Option.some.injEq] at h
    have h1 := List.find?_some hf
    have h2 := List.mem_of_find?_eq_some hf
    obtain ⟨pk, pv⟩ := p
    simp only [decide_eq_true_eq] at h1
    subst h1
    rw [show (pk, pv).2 = pv from rfl] at h
    subst h
    exact h2

/-- `isMissing` is false exactly when a numeric value is supplied. -/
theorem isMissing_false_iff (inputs : List (String × Option ℚ)) (a : String) :
    isMissing inputs a = false ↔ ∃ x, inputLookup inputs a = some (some x) := by
  unfold isMissing
  rcases h : inputLookup inputs a with _ | v
  · simp
  · cases v <;> simp

/-- Counting: if some required (non-unknown) variable is missing, the
substitution dictionary is too small for the completeness check. -/
theorem subsList_length_lt (names : List String) (sf k : String)
    (inputs : List (String × Option ℚ))
    (hnames : names.Nodup) (hsf : sf ∈ names) (hk : k ∈ names) (hks : k ≠ sf)
    (hmiss : isMissing inputs k = true)
    (hnd : (inputs.map Prod.fst).Nodup)
    (hkeys : ∀ p ∈ inputs, p.1 ∈ names) :
    (subsList sf inputs).length + 1 < names.length := by
  have hSnd : ((subsList sf inputs).map Prod.fst).Nodup :=
    (subsList_keys_sublist sf inputs).nodup hnd
  have hsub : (subsList sf inputs).map Prod.fst ⊆ (names.erase sf).erase k := by
    intro j hj
    rw [mem_subsList_keys] at hj
    obtain ⟨⟨x, hx⟩, hjs⟩ := hj
    have hjn : j ∈ names := hkeys (j, some x) hx
    have hjk : j ≠ k := by
      rintro rfl
      have hlk := inputLookup_eq_of_mem inputs j (some x) hnd hx
      rw [show isMissing inputs j = false from
        (isMissing_false_iff inputs j).mpr ⟨x, hlk⟩] at hmiss
      exact Bool.false_ne_true hmiss
    rw [List.Nodup.mem_erase_iff (hnames.erase sf)]
    exact ⟨hjk, by rw [List.Nodup.mem_erase_iff hnames]; exact ⟨hjs, hjn⟩⟩
  have hle : ((subsList sf inputs).map Prod.fst).length ≤
      ((names.erase sf).erase k).length :=
    (List.subperm_of_subset hSnd hsub).length_le
  have hk2 : k ∈ names.erase sf := by
    rw [List.Nodup.mem_erase_iff hnames]; exact ⟨hks, hk⟩
  have h1 : (names.erase sf).length + 1 = names.length := List.length_erase_add_one hsf
  have h2 : ((names.erase sf).erase k).length + 1 = (names.erase sf).length :=
    List.length_erase_add_one hk2
  have h3 : ((subsList sf inputs).map Prod.fst).length = (subsList sf inputs).length :=
    List.length_map _ _
  omega

/-- Counting: if every required variable has a supplied value, the
substitution dictionary has exactly one entry per non-unknown variable and the
completeness check passes. -/
theorem subsList_length_eq (names : List String) (sf : String)
    (inputs : List (String × Option ℚ))
    (hnames : names.Nodup) (hsf : sf ∈ names)
    (hnomiss : ∀ j ∈ names, j ≠ sf → isMissing inputs j = false)
    (hnd : (inputs.map Prod.fst).Nodup)
    (hkeys : ∀ p ∈ inputs, p.1 ∈ names) :
    (subsList sf inputs).length + 1 = names.length := by
  have hSnd : ((subsList sf inputs).map Prod.fst).Nodup :=
    (subsList_keys_sublist sf inputs).nodup hnd
  have hsub1 : (subsList sf inputs).map Prod.fst ⊆ names.erase sf := by
    intro j hj
    rw [mem_subsList_keys] at hj
    obtain ⟨⟨x, hx⟩, hjs⟩ := hj
    rw [List.Nodup.mem_erase_iff hnames]
    exact ⟨hjs, hkeys (j, some x) hx⟩
  have hsub2 : names.erase sf ⊆ (subsList sf inputs).map Prod.fst := by
    intro j hj
    rw [List.Nodup.mem_erase_iff hnames] at hj
    obtain ⟨hjs, hjn⟩ := hj
    obtain ⟨x, hlk⟩ := (isMissing_false_iff inputs j).mp (hnomiss j hjn hjs)
    have hjm : (j, some x) ∈ inputs := mem_of_inputLookup inputs j (some x) hlk
    rw [mem_subsList_keys]
    exact ⟨⟨x, hjm⟩, hjs⟩
  have hle1 := (List.subperm_of_subset hSnd hsub1).length_le
  have hle2 := (List.subperm_of_subset (hnames.erase sf) hsub2).length_le
  have h1 : (names.erase sf).length + 1 = names.length := List.length_erase_add_one hsf
  have h3 : ((subsList sf inputs).map Prod.fst).length = (subsList sf inputs).length :=
    List.length_map _ _
  omega

/-- Master lemma for the missing-input failure: with dictionary-shaped inputs
whose keys are all equation variables, a missing required variable makes
`solve_equation` raise the `ValueError` naming the head of the declaration
-order list of value-less variables. -/
theorem solve_equation_missing (eq : EngineeringEquation) (sf : String)
    (inputs : List (String × Option ℚ)) (E : SymExpr) (k : String)
    (hE : sympify eq.expression = some E)
    (hsf : sf ∈ varNames eq)
    (hnames : (varNames eq).Nodup)
    (hkeys : ∀ p ∈ inputs, p.1 ∈ varNames eq)
    (hnd : (inputs.map Prod.fst).Nodup)
    (hk : k ∈ varNames eq) (hks : k ≠ sf) (hmiss : isMissing inputs k = true) :
    ∃ m, ((varNames eq).filter (isMissing inputs)).head? = some m ∧
      m ∈ varNames eq ∧ isMissing inputs m = true ∧
      solve_equation eq sf inputs = .error (.valueError (missingMsg m)) := by
  have hbs := buildSubstitutions_ok inputs (varNames eq) sf (fun p hp _ _ => hkeys p hp)
  have hlt := subsList_length_lt (varNames eq) sf k inputs hnames hsf hk hks hmiss hnd hkeys
  have hne : (subsList sf inputs).length + 1 ≠ (varNames eq).length := by omega
  have hkf : k ∈ (varNames eq).filter (isMissing inputs) :=
    List.mem_filter.mpr ⟨hk, hmiss⟩
  rcases hfl : (varNames eq).filter (isMissing inputs) with _ | ⟨m, rest⟩
  · rw [hfl] at hkf; simp at hkf
  · have hm : m ∈ (varNames eq).filter (isMissing inputs) := by
      rw [hfl]; exact List.mem_cons_self _ _
    refine ⟨m, by simp [hfl], (List.mem_filter.mp hm).1, (List.mem_filter.mp hm).2, ?_⟩
    simp only [solve_equation, hE, hbs, if_pos hsf, if_pos hne, hfl, List.head?_cons]

/-- Entries for the unknown are skipped by the comprehension whether they are
present or not: removing them leaves the substitution computation unchanged. -/
theorem buildSubstitutions_removeKey (inputs : List (String × Option ℚ))
    (names : List String) (sf : String) :
    buildSubstitutions (removeKey sf inputs) names sf =
      buildSubstitutions inputs names sf := by
  induction inputs with
  | nil => rfl
  | cons hd tl ih =>
    obtain ⟨k, v⟩ := hd
    by_cases hk : k = sf
    · cases v with
      | none => simpa [removeKey, hk, buildSubstitutions] using ih
      | some x => simpa [removeKey, hk, buildSubstitutions] using ih
    · cases v with
      | none => simpa [removeKey, hk, buildSubstitutions] using ih
      | some x => simp [removeKey, hk, buildSubstitutions, ih]

/-- Removing the unknown's entries does not change lookups of other keys. -/
theorem inputLookup_removeKey (inputs : List (String × Option ℚ)) (u j : String)
    (hj : j ≠ u) : inputLookup (removeKey u inputs) j = inputLookup inputs j := by
  induction inputs with
  | nil => rfl
  | cons hd tl ih =>
    obtain ⟨k, v⟩ := hd
    by_cases hk : k = u
    · subst hk
      have hkj : ¬(k = j) := fun h => hj h.symm
      simpa [removeKey, inputLookup, List.find?, hkj] using ih
    · by_cases hkj : k = j
      · subst hkj
        simp [removeKey, inputLookup, List.find?, hk]
      · simpa [removeKey, hk, inputLookup, List.find?, hkj] using ih

/-- Removing the unknown's entries does not change which other variables are
missing. -/
theorem isMissing_removeKey (inputs : List (String × Option ℚ)) (u j : String)
    (hj : j ≠ u) : isMissing (removeKey u inputs) j = isMissing inputs j := by
  unfold isMissing
  rw [inputLookup_removeKey inputs u j hj]

/-- The filtered list is a sublist of the original. -/
theorem removeKey_sublist (u : String) (inputs : List (String × Option ℚ)) :
    (removeKey u inputs).Sublist inputs := by
  induction inputs with
  | nil => simp [removeKey]
  | cons hd tl ih =>
    by_cases hk : hd.1 = u
    · simpa [removeKey, hk] using ih.cons hd
    · simpa [removeKey, hk] using ih.cons₂ hd

/-- Removing entries keeps membership in the original list. -/
theorem removeKey_keys_subset (inputs : List (String × Option ℚ)) (u : String) :
    ∀ p ∈ removeKey u inputs, p ∈ inputs := fun _ hp =>
  (removeKey_sublist u inputs).mem hp

/-- Removing entries preserves distinctness of the keys. -/
theorem removeKey_keys_nodup (inputs : List (String × Option ℚ)) (u : String)
    (hnd : (inputs.map Prod.fst).Nodup) :
    ((removeKey u inputs).map Prod.fst).Nodup :=
  ((removeKey_sublist u inputs).map Prod.fst).nodup hnd

/-- C1: for every equation whose stored expression parses, every unknown among
its variables, and dictionary-shaped inputs keyed by equation variables, if at
least one non-unknown variable lacks a provided numeric value then
`solve_equation` fails with the missing-input `ValueError` (the spec's
`MissingInputError`) naming a variable that lacks a provided value, and never
returns a solution sequence. -/
theorem C1_missing_required_always_fails (eq : EngineeringEquation) (sf : String)
    (inputs : List (String × Option ℚ)) (E : SymExpr) (k : String)
    (hE : sympify eq.expression = some E)
    (hsf : sf ∈ varNames eq) (hnames : (varNames eq).Nodup)
    (hkeys : ∀ p ∈ inputs, p.1 ∈ varNames eq)
    (hnd : (inputs.map Prod.fst).Nodup)
    (hk : k ∈ varNames eq) (hks : k ≠ sf) (hmiss : isMissing inputs k = true) :
    ∃ m, m ∈ varNames eq ∧ isMissing inputs m = true ∧
      solve_equation eq sf inputs = .error (.valueError (missingMsg m)) := by
  obtain ⟨m, _, h2, h3, h4⟩ :=
    solve_equation_missing eq sf inputs E k hE hsf hnames hkeys hnd hk hks hmiss
  exact ⟨m, h2, h3, h4⟩

/-- C1 witness: the punching-force equation with unknown `F` and `t` omitted
from the inputs fails with the missing-input error. -/
theorem C1_missing_required_always_fails_witness :
    ∃ m, m ∈ varNames punchingForceEquation ∧
      isMissing [("L", some 2), ("S_s", some 3)] m = true ∧
      solve_equation punchingForceEquation "F" [("L", some 2), ("S_s", some 3)] =
        .error (.valueError (missingMsg m)) :=
  C1_missing_required_always_fails punchingForceEquation "F"
    [("L", some 2), ("S_s", some 3)] punchAst "t"
    rfl (by decide) (by decide) (by decide) (by decide) (by decide) (by decide)
    (by decide)

/-- C3: the punching-force equation solved for `F` with `t = 0.05`, `L = 10`,
`S_s = 40000` returns exactly the one-element sequence `[20000.0]`. -/
theorem C3_punching_force_linear_exactness :
    solve_equation punchingForceEquation "F"
      [("t", some (1/20)), ("L", some 10), ("S_s", some 40000)] =
    .ok (some [20000]) := by
  rw [solve_equation_ok_of punchingForceEquation "F"
        [("t", some (1/20)), ("L", some 10), ("S_s", some 40000)]
        punchAst [("t", 1/20), ("L", 10), ("S_s", 40000)] rfl rfl
        (by decide) (by decide)]
  have hp : toPoly (punchAst.subst [("t", 1/20), ("L", 10), ("S_s", 40000)]) "F" =
      some [-20000, 1] := by
    simp [punchAst, SymExpr.subst, toPoly, polyMul, polyAdd, polyScale, polySub, polyNeg]
    norm_num
  rw [sympySolveReal_linear _ _ _ _ hp (by norm_num)]
  norm_num

/-- C4 counterexample: with unknown `F` mapped to `None` (exactly as the page
builds its inputs) and `t` absent, the raised error names `F` — the unknown
itself, which is not a required (non-unknown) missing variable. -/
theorem C4_counterexample_reports_the_unknown :
    solve_equation punchingForceEquation "F"
      [("F", none), ("L", some 2), ("S_s", some 3)] =
      .error (.valueError (missingMsg "F")) ∧
    "F" ∉ requiredMissingVars punchingForceEquation "F"
      [("F", none), ("L", some 2), ("S_s", some 3)] ∧
    "t" ∈ requiredMissingVars punchingForceEquation "F"
      [("F", none), ("L", some 2), ("S_s", some 3)] := by
  refine ⟨by decide, by decide, by decide⟩

/-- C4 amended: whenever a required variable is missing, the error names the
first variable in declaration order that lacks a provided value — where the
unknown itself counts as lacking a value unless one was supplied for it, so
the reported name may be the unknown rather than a required variable. -/
theorem C4_reports_first_valueless_in_declaration_order (eq : EngineeringEquation)
    (sf : String) (inputs : List (String × Option ℚ)) (E : SymExpr) (k : String)
    (hE : sympify eq.expression = some E)
    (hsf : sf ∈ varNames eq) (hnames : (varNames eq).Nodup)
    (hkeys : ∀ p ∈ inputs, p.1 ∈ varNames eq)
    (hnd : (inputs.map Prod.fst).Nodup)
    (hk : k ∈ varNames eq) (hks : k ≠ sf) (hmiss : isMissing inputs k = true) :
    ∃ m, ((varNames eq).filter (isMissing inputs)).head? = some m ∧
      solve_equation eq sf inputs = .error (.valueError (missingMsg m)) := by
  obtain ⟨m, h1, _, _, h4⟩ :=
    solve_equation_missing eq sf inputs E k hE hsf hnames hkeys hnd hk hks hmiss
  exact ⟨m, h1, h4⟩

/-- C4 amended witness: in the counterexample situation the first value-less
variable in declaration order is the unknown `F`, and it is reported. -/
theorem C4_reports_first_valueless_in_declaration_order_witness :
    ∃ m, ((varNames punchingForceEquation).filter
        (isMissing [("F", none), ("L", some 2), ("S_s", some 3)])).head? = some m ∧
      solve_equation punchingForceEquation "F"
        [("F", none), ("L", some 2), ("S_s", some 3)] =
        .error (.valueError (missingMsg m)) :=
  C4_reports_first_valueless_in_declaration_order punchingForceEquation "F"
    [("F", none), ("L", some 2), ("S_s", some 3)] punchAst "t"
    rfl (by decide) (by decide) (by decide) (by decide) (by decide) (by decide)
    (by decide)

/-- C5 counterexample: with unknown `F`, full inputs except `t`, and a value
supplied under `F`, removing the entry for `F` changes the outcome — the run
with the entry reports `t` missing, the run without it reports `F`. -/
theorem C5_counterexample_unknown_entry_changes_error :
    solve_equation punchingForceEquation "F"
        [("F", some 1), ("L", some 2), ("S_s", some 3)] ≠
      solve_equation punchingForceEquation "F"
        (removeKey "F" [("F", some 1), ("L", some 2), ("S_s", some 3)]) ∧
    solve_equation punchingForceEquation "F"
        [("F", some 1), ("L", some 2), ("S_s", some 3)] =
      .error (.valueError (missingMsg "t")) ∧
    solve_equation punchingForceEquation "F"
        (removeKey "F" [("F", some 1), ("L", some 2), ("S_s", some 3)]) =
      .error (.valueError (missingMsg "F")) := by
  refine ⟨by decide, by decide, by decide⟩

/-- C5 amended: a value supplied for the unknown never reaches the algebra
and never changes whether solving succeeds or which solutions are returned;
on the missing-input failure both runs raise the missing-input `ValueError`,
though possibly naming different variables. -/
theorem C5_unknown_entry_ignored_up_to_error_name (eq : EngineeringEquation)
    (sf : String) (inputs : List (String × Option ℚ)) (E : SymExpr)
    (hE : sympify eq.expression = some E)
    (hsf : sf ∈ varNames eq) (hnames : (varNames eq).Nodup)
    (hkeys : ∀ p ∈ inputs, p.1 ∈ varNames eq)
    (hnd : (inputs.map Prod.fst).Nodup) :
    (∃ v, solve_equation eq sf inputs = .ok v ∧
        solve_equation eq sf (removeKey sf inputs) = .ok v) ∨
    (∃ m1 m2, solve_equation eq sf inputs = .error (.valueError (missingMsg m1)) ∧
        solve_equation eq sf (removeKey sf inputs) =
          .error (.valueError (missingMsg m2))) := by
  have hbs1 := buildSubstitutions_ok inputs (varNames eq) sf (fun p hp _ _ => hkeys p hp)
  have hbs2 : buildSubstitutions (removeKey sf inputs) (varNames eq) sf =
      .ok (subsList sf inputs) :=
    (buildSubstitutions_removeKey inputs (varNames eq) sf).trans hbs1
  by_cases hlen : (subsList sf inputs).length + 1 = (varNames eq).length
  · left
    exact ⟨sympySolveReal (E.subst (subsList sf inputs)) sf,
      solve_equation_ok_of eq sf inputs E _ hE hbs1 hsf hlen,
      solve_equation_ok_of eq sf (removeKey sf inputs) E _ hE hbs2 hsf hlen⟩
  · right
    have hmiss : ∃ k ∈ varNames eq, k ≠ sf ∧ isMissing inputs k = true := by
      by_contra hcon
      push_neg at hcon
      apply hlen
      apply subsList_length_eq (varNames eq) sf inputs hnames hsf ?_ hnd hkeys
      intro j hj hjs
      have := hcon j hj hjs
      simpa using this
    obtain ⟨k, hk, hks, hkm⟩ := hmiss
    obtain ⟨m1, _, _, _, h14⟩ :=
      solve_equation_missing eq sf inputs E k hE hsf hnames hkeys hnd hk hks hkm
    have hkeys2 : ∀ p ∈ removeKey sf inputs, p.1 ∈ varNames eq :=
      fun p hp => hkeys p (removeKey_keys_subset inputs sf p hp)
    have hnd2 := removeKey_keys_nodup inputs sf hnd
    have hkm2 : isMissing (removeKey sf inputs) k = true := by
      rw [isMissing_removeKey inputs sf k hks]; exact hkm
    obtain ⟨m2, _, _, _, h24⟩ :=
      solve_equation_missing eq sf (removeKey sf inputs) E k hE hsf hnames hkeys2
        hnd2 hk hks hkm2
    exact ⟨m1, m2, h14, h24⟩

/-- C5 amended witness: with full inputs including a value for the unknown,
both runs succeed with the same solution list. -/
theorem C5_unknown_entry_ignored_up_to_error_name_witness :
    (∃ v, solve_equation punchingForceEquation "F"
        [("F", some 7), ("t", some 1), ("L", some 2), ("S_s", some 3)] = .ok v ∧
        solve_equation punchingForceEquation "F"
          (removeKey "F" [("F", some 7), ("t", some 1), ("L", some 2), ("S_s", some 3)]) =
          .ok v) ∨
    (∃ m1 m2, solve_equation punchingForceEquation "F"
        [("F", some 7), ("t", some 1), ("L", some 2), ("S_s", some 3)] =
        .error (.valueError (missingMsg m1)) ∧
        solve_equation punchingForceEquation "F"
          (removeKey "F" [("F", some 7), ("t", some 1), ("L", some 2), ("S_s", some 3)]) =
          .error (.valueError (missingMsg m2))) :=
  C5_unknown_entry_ignored_up_to_error_name punchingForceEquation "F"
    [("F", some 7), ("t", some 1), ("L", some 2), ("S_s", some 3)] punchAst
    rfl (by decide) (by decide) (by decide) (by decide)

/-- C10: with a parseable expression, an unknown outside the equation's
variables or any stray non-`None` input key raises the untyped `KeyError`
of the `symbols[...]` dictionary lookup — distinct from the missing-input
`ValueError` — before any algebraic solving happens. -/
theorem C10_key_error_before_solving (eq : EngineeringEquation) (sf : String)
    (inputs : List (String × Option ℚ)) (E : SymExpr)
    (hE : sympify eq.expression = some E)
    (h : sf ∉ varNames eq ∨ ∃ p ∈ inputs, p.2 ≠ none ∧ p.1 ∉ varNames eq) :
    ∃ k, k ∉ varNames eq ∧ solve_equation eq sf inputs = .error (.keyError k) := by
  by_cases hbad : ∃ p ∈ inputs, p.2 ≠ none ∧ p.1 ≠ sf ∧ p.1 ∉ varNames eq
  · obtain ⟨k, h1, h2⟩ := buildSubstitutions_err inputs (varNames eq) sf hbad
    refine ⟨k, h1, ?_⟩
    simp only [solve_equation, hE, h2]
  · have hsf : sf ∉ varNames eq := by
      rcases h with h | ⟨p, hp, hp2, hp4⟩
      · exact h
      · by_cases hps : p.1 = sf
        · rw [← hps]; exact hp4
        · exact absurd ⟨p, hp, hp2, hps, hp4⟩ hbad
    push_neg at hbad
    have hok := buildSubstitutions_ok inputs (varNames eq) sf hbad
    refine ⟨sf, hsf, ?_⟩
    simp only [solve_equation, hE, hok, if_neg hsf]

/-- C10 witness: solving the punching-force equation for a variable `Z` it
does not declare raises `KeyError` even with empty inputs. -/
theorem C10_key_error_before_solving_witness :
    ∃ k, k ∉ varNames punchingForceEquation ∧
      solve_equation punchingForceEquation "Z" [] = .error (.keyError k) :=
  C10_key_error_before_solving punchingForceEquation "Z" [] punchAst rfl
    (Or.inl (by decide))

/-- C2: real-root filtering.  Solving `x**2 - 4 = 0` for `x` with no other
variables yields exactly the real roots `{2.0, -2.0}`; solving `x**2 + 4 = 0`
yields the empty sequence because both roots are purely imaginary and the
`is_real` filter drops them; the empty sequence is returned as a normal
non-error result, not raised as an error. -/
theorem C2_real_root_filtering :
    solve_equation quadMinusFour "x" [] = .ok (some [-2, 2]) ∧
    (∀ r : ℚ, r ∈ [(-2 : ℚ), 2] ↔ (r = 2 ∨ r = -2)) ∧
    solve_equation quadPlusFour "x" [] = .ok (some ([] : List ℚ)) ∧
    (∀ e, solve_equation quadPlusFour "x" [] ≠ .error e) := by
  have h2 : solve_equation quadPlusFour "x" [] = .ok (some ([] : List ℚ)) := by
    rw [solve_equation_ok_of quadPlusFour "x" []
          (.add (.pow (.var "x") (.num 2)) (.num 4)) [] rfl rfl (by decide) (by decide)]
    have hp : toPoly ((SymExpr.add (.pow (.var "x") (.num 2)) (.num 4)).subst []) "x" =
        some [4, 0, 1] := by
      norm_num [SymExpr.subst, toPoly, polyPow, polyMul, polyAdd, polyScale, polySub,
        polyNeg, isConstPoly_singleton]
    rw [sympySolveReal_quadNeg _ _ _ _ _ hp (by norm_num) (by norm_num)]
  refine ⟨?_, ?_, h2, fun e h => by rw [h2] at h; exact Except.noConfusion h⟩
  · rw [solve_equation_ok_of quadMinusFour "x" []
          (.sub (.pow (.var "x") (.num 2)) (.num 4)) [] rfl rfl (by decide) (by decide)]
    have hp : toPoly ((SymExpr.sub (.pow (.var "x") (.num 2)) (.num 4)).subst []) "x" =
        some [-4, 0, 1] := by
      norm_num [SymExpr.subst, toPoly, polyPow, polyMul, polyAdd, polyScale, polySub,
        polyNeg, isConstPoly_singleton]
    rw [sympySolveReal_quadPos _ _ _ _ _ 4 hp (by norm_num) (by norm_num) (by norm_num)
          (by norm_num)]
    norm_num
  · intro r
    simp only [List.mem_cons, List.not_mem_nil, or_false]
    tauto

/-- C6: round-trip consistency on the punching-force equation.  For all
positive `t`, `L`, `S_s`, solving for `F` yields a single value, and feeding
that value back as a known and solving for `t` recovers the original `t`
exactly (the model computes in `ℚ`, so recovery is exact and in particular
within floating-point tolerance). -/
theorem C6_punching_force_round_trip (t L S : ℚ) (ht : 0 < t) (hL : 0 < L)
    (hS : 0 < S) :
    ∃ F, solve_equation punchingForceEquation "F"
        [("F", none), ("t", some t), ("L", some L), ("S_s", some S)] =
        .ok (some [F]) ∧
      solve_equation punchingForceEquation "t"
        [("F", some F), ("t", none), ("L", some L), ("S_s", some S)] =
        .ok (some [t]) := by
  have hLS : (0:ℚ) < L * S := mul_pos hL hS
  refine ⟨t * L * S, ?_, ?_⟩
  · rw [solve_equation_ok_of punchingForceEquation "F"
        [("F", none), ("t", some t), ("L", some L), ("S_s", some S)]
        punchAst [("t", t), ("L", L), ("S_s", S)] rfl rfl (by decide) rfl]
    have hp : toPoly (punchAst.subst [("t", t), ("L", L), ("S_s", S)]) "F" =
        some [-(t * L * S), 1] := by
      simp [punchAst, SymExpr.subst, toPoly, polyMul, polyAdd, polyScale, polySub,
        polyNeg]
    rw [sympySolveReal_linear _ _ _ _ hp (by norm_num)]
    norm_num
  · rw [solve_equation_ok_of punchingForceEquation "t"
        [("F", some (t * L * S)), ("t", none), ("L", some L), ("S_s", some S)]
        punchAst [("F", t * L * S), ("L", L), ("S_s", S)] rfl rfl
        (by decide) rfl]
    have hp : toPoly (punchAst.subst [("F", t * L * S), ("L", L), ("S_s", S)]) "t" =
        some [t * L * S, -(L * S)] := by
      simp [punchAst, SymExpr.subst, toPoly, polyMul, polyAdd, polyScale, polySub,
        polyNeg]
    rw [sympySolveReal_linear _ _ _ _ hp (neg_ne_zero.mpr hLS.ne')]
    have hdiv : -(t * L * S) / -(L * S) = t := by
      rw [neg_div_neg_eq, div_eq_iff hLS.ne']
      ring
    rw [hdiv]

/-- C6 witness: the round trip at `t = 1`, `L = 2`, `S_s = 3`. -/
theorem C6_punching_force_round_trip_witness :
    ∃ F, solve_equation punchingForceEquation "F"
        [("F", none), ("t", some 1), ("L", some 2), ("S_s", some 3)] =
        .ok (some [F]) ∧
      solve_equation punchingForceEquation "t"
        [("F", some F), ("t", none), ("L", some 2), ("S_s", some 3)] =
        .ok (some [1]) :=
  C6_punching_force_round_trip 1 2 3 (by norm_num) (by norm_num) (by norm_num)

/-- C7: solution soundness on the punching-force equation.  For any positive
value set, every solution returned when solving for `t`, and every solution
returned when solving for `L`, satisfies the original equation
`F - t*L*S_s = 0` exactly when substituted back together with the knowns. -/
theorem C7_punching_force_solution_soundness (F t L S : ℚ) (hF : 0 < F)
    (ht : 0 < t) (hL : 0 < L) (hS : 0 < S) :
    (∃ sols, solve_equation punchingForceEquation "t"
        [("F", some F), ("t", none), ("L", some L), ("S_s", some S)] =
        .ok (some sols) ∧
      ∀ x ∈ sols, punchAst.eval [("F", F), ("t", x), ("L", L), ("S_s", S)] =
        some 0) ∧
    (∃ sols, solve_equation punchingForceEquation "L"
        [("F", some F), ("t", some t), ("L", none), ("S_s", some S)] =
        .ok (some sols) ∧
      ∀ x ∈ sols, punchAst.eval [("F", F), ("t", t), ("L", x), ("S_s", S)] =
        some 0) := by
  constructor
  · have hLS : (0:ℚ) < L * S := mul_pos hL hS
    refine ⟨[F / (L * S)], ?_, ?_⟩
    · rw [solve_equation_ok_of punchingForceEquation "t"
          [("F", some F), ("t", none), ("L", some L), ("S_s", some S)]
          punchAst [("F", F), ("L", L), ("S_s", S)] rfl rfl (by decide) rfl]
      have hp : toPoly (punchAst.subst [("F", F), ("L", L), ("S_s", S)]) "t" =
          some [F, -(L * S)] := by
        simp [punchAst, SymExpr.subst, toPoly, polyMul, polyAdd, polyScale, polySub,
          polyNeg]
      rw [sympySolveReal_linear _ _ _ _ hp (neg_ne_zero.mpr hLS.ne')]
      rw [show -F / -(L * S) = F / (L * S) from neg_div_neg_eq F (L * S)]
    · intro x hx
      rw [List.mem_singleton] at hx
      subst hx
      have hev : punchAst.eval
          [("F", F), ("t", F / (L * S)), ("L", L), ("S_s", S)] =
          some (F - F / (L * S) * L * S) := by
        simp [punchAst, SymExpr.eval, List.find?]
      rw [hev]
      congr 1
      field_simp
      ring
  · have htS : (0:ℚ) < t * S := mul_pos ht hS
    refine ⟨[F / (t * S)], ?_, ?_⟩
    · rw [solve_equation_ok_of punchingForceEquation "L"
          [("F", some F), ("t", some t), ("L", none), ("S_s", some S)]
          punchAst [("F", F), ("t", t), ("S_s", S)] rfl rfl (by decide) rfl]
      have hp : toPoly (punchAst.subst [("F", F), ("t", t), ("S_s", S)]) "L" =
          some [F, -(t * S)] := by
        simp [punchAst, SymExpr.subst, toPoly, polyMul, polyAdd, polyScale, polySub,
          polyNeg]
      rw [sympySolveReal_linear _ _ _ _ hp (neg_ne_zero.mpr htS.ne')]
      rw [show -F / -(t * S) = F / (t * S) from neg_div_neg_eq F (t * S)]
    · intro x hx
      rw [List.mem_singleton] at hx
      subst hx
      have hev : punchAst.eval
          [("F", F), ("t", t), ("L", F / (t * S)), ("S_s", S)] =
          some (F - t * (F / (t * S)) * S) := by
        simp [punchAst, SymExpr.eval, List.find?]
      rw [hev]
      congr 1
      field_simp
      ring

/-- C7 witness: soundness at the concrete value set `F = 5`, `t = 1`, `L = 2`,
`S_s = 3`. -/
theorem C7_punching_force_solution_soundness_witness :
    (∃ sols, solve_equation punchingForceEquation "t"
        [("F", some 5), ("t", none), ("L", some 2), ("S_s", some 3)] =
        .ok (some sols) ∧
      ∀ x ∈ sols, punchAst.eval [("F", 5), ("t", x), ("L", 2), ("S_s", 3)] =
        some 0) ∧
    (∃ sols, solve_equation punchingForceEquation "L"
        [("F", some 5), ("t", some 1), ("L", none), ("S_s", some 3)] =
        .ok (some sols) ∧
      ∀ x ∈ sols, punchAst.eval [("F", 5), ("t", 1), ("L", x), ("S_s", 3)] =
        some 0) :=
  C7_punching_force_solution_soundness 5 1 2 3 (by norm_num) (by norm_num)
    (by norm_num) (by norm_num)

/-- C8 counterexample: the air-bending solve with `k = 1.33`, `S_t = 45000`,
`t = 0.06`, `W = 12`, `V_d = 0.5` returns exactly the closed-form value
`1.33*45000*0.06**2*12/(8*0.5) = 646.38`, which differs from the claimed
`517.05` by more than `129` — nowhere near agreement to several decimal
places. -/
theorem C8_counterexample_claimed_value_wrong :
    solve_equation airBendingEquation "F"
      [("F", none), ("k", some (133/100)), ("S_t", some 45000), ("t", some (3/50)),
       ("W", some 12), ("V_d", some (1/2))] = .ok (some [64638/100]) ∧
    (64638/100 : ℚ) = (133/100) * 45000 * (3/50) ^ 2 * 12 / (8 * (1/2)) ∧
    (51705/100 : ℚ) + 129 < 64638/100 := by
  refine ⟨?_, by norm_num, by norm_num⟩
  rw [solve_equation_ok_of airBendingEquation "F"
        [("F", none), ("k", some (133/100)), ("S_t", some 45000), ("t", some (3/50)),
         ("W", some 12), ("V_d", some (1/2))]
        airBendAst
        [("k", 133/100), ("S_t", 45000), ("t", 3/50), ("W", 12), ("V_d", 1/2)]
        rfl rfl (by decide) (by decide)]
  have hp : toPoly (airBendAst.subst
      [("k", 133/100), ("S_t", 45000), ("t", 3/50), ("W", 12), ("V_d", 1/2)]) "F" =
      some [-(32319/50), 1] := by
    norm_num [airBendAst, SymExpr.subst, toPoly, polyPow, polyMul, polyAdd, polyScale,
      polySub, polyNeg, isConstPoly_singleton]
  rw [sympySolveReal_linear _ _ _ _ hp (by norm_num)]
  norm_num

/-- C8 amended: the end-to-end air-bending solve for `F` yields exactly the
closed-form value `1.33*45000*0.06**2*12/(8*0.5)`, which is `646.38` (the
spec's `≈ 517.05` is an arithmetic slip). -/
theorem C8_air_bending_end_to_end :
    solve_equation airBendingEquation "F"
      [("F", none), ("k", some (133/100)), ("S_t", some 45000), ("t", some (3/50)),
       ("W", some 12), ("V_d", some (1/2))] =
      .ok (some [(133/100 : ℚ) * 45000 * (3/50) ^ 2 * 12 / (8 * (1/2))]) := by
  rw [solve_equation_ok_of airBendingEquation "F"
        [("F", none), ("k", some (133/100)), ("S_t", some 45000), ("t", some (3/50)),
         ("W", some 12), ("V_d", some (1/2))]
        airBendAst
        [("k", 133/100), ("S_t", 45000), ("t", 3/50), ("W", 12), ("V_d", 1/2)]
        rfl rfl (by decide) (by decide)]
  have hp : toPoly (airBendAst.subst
      [("k", 133/100), ("S_t", 45000), ("t", 3/50), ("W", 12), ("V_d", 1/2)]) "F" =
      some [-(32319/50), 1] := by
    norm_num [airBendAst, SymExpr.subst, toPoly, polyPow, polyMul, polyAdd, polyScale,
      polySub, polyNeg, isConstPoly_singleton]
  rw [sympySolveReal_linear _ _ _ _ hp (by norm_num)]
  norm_num
